import Mathlib

/-!
Verification of `type_safe::deferred_construction<T>`
(src/include/type_safe/deferred_construction.hpp).

The cell owns raw storage for one `T` plus a flag `initialized_`.  We embed the
raw storage as `Option T`: `some v` exactly when a live, fully constructed `T`
object sits in the storage, `none` when the bytes hold no live object.  The
flag is embedded verbatim as a `Bool` field.

Fallible C++ constructors of the value type are embedded as `Except`-valued
functions: `Except.ok v` is a constructor run that completes and produces the
object `v`, `Except.error e` is a constructor run that throws `e` (so no object
comes to life).  A move constructor maps the source object to the pair
(constructed object, moved-from residue left in the source).

`DEBUG_ASSERT` (fail-fast in a checked build) is made visible in the result
types: an operation whose precondition check fires returns a dedicated
`assertViolation` constructor instead of a value.
-/

namespace type_safe

/-- The data members of `deferred_construction<T>`: `storage_` (raw storage,
abstracted to the live object it holds, if any) and `initialized_`. -/
structure deferred_construction (T : Type) where
  storage_ : Option T
  initialized_ : Bool
  deriving DecidableEq

variable {T : Type} {ε : Type}

/-- The default constructor `deferred_construction() : initialized_(false)`:
no `T` constructor runs, the storage holds no live object. -/
def default_construct (T : Type) : deferred_construction T :=
  ⟨none, false⟩

/-- `bool has_value() const noexcept { return initialized_; }` -/
def has_value (c : deferred_construction T) : Bool :=
  c.initialized_

/-- `explicit operator bool() const noexcept { return has_value(); }` -/
def operator_bool (c : deferred_construction T) : Bool :=
  has_value c

/-- Result of an operation guarded by `DEBUG_ASSERT`: either the assertion
fires (fail-fast in a checked build) or the operation yields a value. -/
inductive Checked (α : Type) where
  | assertViolation
  | ok (a : α)
  deriving DecidableEq

/-- `value_type& value() &`: asserts `has_value()`, then returns a reference to
the object in the storage (embedded as the storage content). -/
def value_lvalue (c : deferred_construction T) : Checked (Option T) :=
  if has_value c then .ok c.storage_ else .assertViolation

/-- `const value_type& value() const&`: asserts `has_value()`, then returns a
const reference to the object in the storage. -/
def value_const_lvalue (c : deferred_construction T) : Checked (Option T) :=
  if has_value c then .ok c.storage_ else .assertViolation

/-- `value_type&& value() &&`: asserts `has_value()`, then returns an rvalue
reference to the object in the storage. -/
def value_rvalue (c : deferred_construction T) : Checked (Option T) :=
  if has_value c then .ok c.storage_ else .assertViolation

/-- `const value_type&& value() const&&`: asserts `has_value()`, then returns a
const rvalue reference to the object in the storage. -/
def value_const_rvalue (c : deferred_construction T) : Checked (Option T) :=
  if has_value c then .ok c.storage_ else .assertViolation

/-- Result of `emplace` (and of `operator=`): the `DEBUG_ASSERT` may fire, the
chosen `T` constructor may throw, or the call succeeds.  Each constructor
carries the state of the cell itself afterwards (for `assertViolation`, the
state at the moment the fail-fast check fires). -/
inductive EmplaceResult (ε T : Type) where
  | assertViolation (self : deferred_construction T)
  | thrown (e : ε) (self : deferred_construction T)
  | ok (self : deferred_construction T)
  deriving DecidableEq

/-- The cell state carried by an `EmplaceResult`. -/
def EmplaceResult.self : EmplaceResult ε T → deferred_construction T
  | .assertViolation c => c
  | .thrown _ c => c
  | .ok c => c

/-- `template <typename... Args> void emplace(Args&&... args)`:
`DEBUG_ASSERT(!has_value())`, then placement-new of `value_type(args...)`,
then `initialized_ = true`.  The run of the chosen `T` constructor on the
given arguments is passed in as `ctor`.  If the assert fires, the constructor
is never reached; if the constructor throws, `initialized_` is never set and
the cell is left exactly as it was. -/
def emplace (c : deferred_construction T) (ctor : Except ε T) : EmplaceResult ε T :=
  if has_value c then .assertViolation c
  else
    match ctor with
    | .error e => .thrown e c
    | .ok v => .ok ⟨some v, true⟩

/-- `template <typename U> operator=(U&& u)`: defined as
`emplace(std::forward<U>(u))` (the convertible-value assignment is sugar for
the construct-once operation). -/
def assign (c : deferred_construction T) (ctor : Except ε T) : EmplaceResult ε T :=
  emplace c ctor

/-- Result of running a copy or move constructor of the cell itself: either
the value type's constructor throws (the new cell never comes to life — no
object, not even a partial one, exists in its storage) or the new cell is
fully constructed. -/
inductive CtorResult (ε T : Type) where
  | thrown (e : ε)
  | ok (newCell : deferred_construction T)
  deriving DecidableEq

/-- Copy constructor `deferred_construction(const deferred_construction&
other) : initialized_(other.initialized_) { if (initialized_) new (as_void())
value_type(other.value()); }`.  `copyCtor` is the copy constructor of `T`.
Returns the construction result and the source afterwards (the source is read
through `value() const&` only, never written). -/
def copy_construct (copyCtor : T → Except ε T) (other : deferred_construction T) :
    CtorResult ε T × deferred_construction T :=
  if other.initialized_ then
    match other.storage_ with
    | some v =>
      match copyCtor v with
      | .error e => (.thrown e, other)
      | .ok w => (.ok ⟨some w, true⟩, other)
    | none => (.ok ⟨none, true⟩, other)
  else (.ok ⟨none, false⟩, other)

/-- Move constructor `deferred_construction(deferred_construction&& other) :
initialized_(other.initialized_) { if (initialized_) new (as_void())
value_type(std::move(other).value()); }`.  `moveCtor` maps the source object
to `(constructed object, moved-from residue)`; the residue stays alive in the
source's storage and the source's `initialized_` flag is never cleared. -/
def move_construct (moveCtor : T → Except ε (T × T)) (other : deferred_construction T) :
    CtorResult ε T × deferred_construction T :=
  if other.initialized_ then
    match other.storage_ with
    | some v =>
      match moveCtor v with
      | .error e => (.thrown e, other)
      | .ok p => (.ok ⟨some p.1, true⟩, ⟨some p.2, true⟩)
    | none => (.ok ⟨none, true⟩, other)
  else (.ok ⟨none, false⟩, other)

/-- Destructor `~deferred_construction() { if (initialized_)
value().~value_type(); }`: returns how many `T`-destructor invocations tearing
the cell down performs. -/
def destruct (c : deferred_construction T) : Nat :=
  if c.initialized_ then 1 else 0

/-- One exposed operation applied to a given cell: the cell is the target of
`emplace` / the convertible-value assignment / `has_value` / `operator bool` /
the four `value` accessors, or the source of a copy- or move-construction. -/
inductive CellOp (ε T : Type) where
  | emplaceOp (ctor : Except ε T)
  | assignOp (ctor : Except ε T)
  | hasValueOp
  | operatorBoolOp
  | valueLvalueOp
  | valueConstLvalueOp
  | valueRvalueOp
  | valueConstRvalueOp
  | copySourceOp (copyCtor : T → Except ε T)
  | moveSourceOp (moveCtor : T → Except ε (T × T))

/-- The state of the cell itself after one exposed operation touched it.
Queries are `const` and return no new state; copy-construction reads the
source through `value() const&`; move-construction leaves the moved-from
residue in the source. -/
def cell_after (c : deferred_construction T) : CellOp ε T → deferred_construction T
  | .emplaceOp ctor => (emplace c ctor).self
  | .assignOp ctor => (assign c ctor).self
  | .hasValueOp => c
  | .operatorBoolOp => c
  | .valueLvalueOp => c
  | .valueConstLvalueOp => c
  | .valueRvalueOp => c
  | .valueConstRvalueOp => c
  | .copySourceOp copyCtor => (copy_construct copyCtor c).2
  | .moveSourceOp moveCtor => (move_construct moveCtor c).2

/-- The state of the cell after a whole sequence of exposed operations. -/
def run_cell_ops (c : deferred_construction T) (ops : List (CellOp ε T)) :
    deferred_construction T :=
  ops.foldl cell_after c

/-- The instrumented-test-harness world: a collection of live cells, together
with counters of completed `T` constructions and of `T` destructions (the
counting value type of property P8). -/
structure World (T : Type) where
  cells : List (deferred_construction T)
  ctors : Nat
  dtors : Nat
  deriving DecidableEq

/-- The world before any cell exists. -/
def world0 (T : Type) : World T :=
  ⟨[], 0, 0⟩

/-- One operation of a test run, against the cell at a given index (an index
outside the collection is a no-op of the run, not an operation of the cell). -/
inductive Op (ε T : Type) where
  | newCell
  | emplaceAt (i : Nat) (ctor : Except ε T)
  | assignAt (i : Nat) (ctor : Except ε T)
  | copyNewFrom (i : Nat)
  | moveNewFrom (i : Nat)
  | hasValueAt (i : Nat)
  | operatorBoolAt (i : Nat)
  | valueLvalueAt (i : Nat)
  | valueConstLvalueAt (i : Nat)
  | valueRvalueAt (i : Nat)
  | valueConstRvalueAt (i : Nat)

/-- One `T` construction completed iff the freshly built cell holds a live
object (the instrumented value type counts each constructor run that
finishes). -/
def ctorCount (c : deferred_construction T) : Nat :=
  if c.storage_.isSome then 1 else 0

/-- One step of a test run.  `copyCtor` and `moveCtor` are the copy and move
constructors of the value type.  A step on which a `DEBUG_ASSERT` fires or a
`T` constructor throws completes no construction and runs no destructor; a
cell is only ever appended to the world fully constructed. -/
def step (copyCtor : T → Except ε T) (moveCtor : T → Except ε (T × T))
    (w : World T) : Op ε T → World T
  | .newCell => ⟨w.cells ++ [default_construct T], w.ctors, w.dtors⟩
  | .emplaceAt i ctor =>
    if h : i < w.cells.length then
      match emplace (w.cells[i]) ctor with
      | .assertViolation _ => w
      | .thrown _ _ => w
      | .ok c' => ⟨w.cells.set i c', w.ctors + ctorCount c', w.dtors⟩
    else w
  | .assignAt i ctor =>
    if h : i < w.cells.length then
      match assign (w.cells[i]) ctor with
      | .assertViolation _ => w
      | .thrown _ _ => w
      | .ok c' => ⟨w.cells.set i c', w.ctors + ctorCount c', w.dtors⟩
    else w
  | .copyNewFrom i =>
    if h : i < w.cells.length then
      match copy_construct copyCtor (w.cells[i]) with
      | (.thrown _, s') => ⟨w.cells.set i s', w.ctors, w.dtors⟩
      | (.ok c', s') => ⟨(w.cells.set i s') ++ [c'], w.ctors + ctorCount c', w.dtors⟩
    else w
  | .moveNewFrom i =>
    if h : i < w.cells.length then
      match move_construct moveCtor (w.cells[i]) with
      | (.thrown _, s') => ⟨w.cells.set i s', w.ctors, w.dtors⟩
      | (.ok c', s') => ⟨(w.cells.set i s') ++ [c'], w.ctors + ctorCount c', w.dtors⟩
    else w
  | .hasValueAt _ => w
  | .operatorBoolAt _ => w
  | .valueLvalueAt _ => w
  | .valueConstLvalueAt _ => w
  | .valueRvalueAt _ => w
  | .valueConstRvalueAt _ => w

/-- A whole test run from a starting world. -/
def run (copyCtor : T → Except ε T) (moveCtor : T → Except ε (T × T))
    (w : World T) (ops : List (Op ε T)) : World T :=
  ops.foldl (step copyCtor moveCtor) w

/-- Total `T`-destructor invocations of tearing down every cell in turn. -/
def dtorSum : List (deferred_construction T) → Nat
  | [] => 0
  | c :: cs => destruct c + dtorSum cs

/-- Destroy every cell of the world at the end of the run: each cell's
destructor runs exactly once. -/
def destroyAll (w : World T) : World T :=
  ⟨[], w.ctors, w.dtors + dtorSum w.cells⟩

/-- Number of live `T` objects sitting in a collection of cells. -/
def liveCount : List (deferred_construction T) → Nat
  | [] => 0
  | c :: cs => ctorCount c + liveCount cs

/-- The run invariant: every cell satisfies invariant I1 (`storage_` holds a
live object iff `initialized_`), and completed constructions exceed
destructions by exactly the number of live objects. -/
def WInv (w : World T) : Prop :=
  (∀ c ∈ w.cells, c.storage_.isSome = c.initialized_) ∧
    w.ctors = w.dtors + liveCount w.cells

/-! ### Helper lemmas -/

theorem liveCount_append (l l' : List (deferred_construction T)) :
    liveCount (l ++ l') = liveCount l + liveCount l' := by
  induction l with
  | nil => simp [liveCount]
  | cons c cs ih => simp [liveCount, ih]; omega

theorem liveCount_set (l : List (deferred_construction T)) (i : Nat)
    (c' : deferred_construction T) (h : i < l.length) :
    liveCount (l.set i c') + ctorCount l[i] =
      liveCount l + ctorCount c' := by
  induction l generalizing i with
  | nil => simp at h
  | cons a as ih =>
    cases i with
    | zero => simp [List.set, liveCount]; omega
    | succ n =>
      have hn : n < as.length := by simpa using h
      have hrec := ih n hn
      simp [List.set, liveCount] at hrec ⊢
      omega

theorem set_get_self {α : Type} (l : List α) (i : Nat) (h : i < l.length) :
    l.set i l[i] = l := by
  induction l generalizing i with
  | nil => simp at h
  | cons a as ih =>
    cases i with
    | zero => simp [List.set]
    | succ n =>
      have hn : n < as.length := by simpa using h
      simpa [List.set] using ih n hn

theorem mem_of_mem_set {α : Type} {l : List α} {i : Nat} {c' a : α}
    (hm : a ∈ l.set i c') : a ∈ l ∨ a = c' := by
  induction l generalizing i with
  | nil => simp [List.set] at hm
  | cons b bs ih =>
    cases i with
    | zero =>
      rcases List.mem_cons.mp hm with h | h
      · exact Or.inr h
      · exact Or.inl (List.mem_cons_of_mem _ h)
    | succ n =>
      rcases List.mem_cons.mp hm with h | h
      · exact Or.inl (h ▸ List.mem_cons_self _ _)
      · rcases ih h with h | h
        · exact Or.inl (List.mem_cons_of_mem _ h)
        · exact Or.inr h

theorem dtorSum_eq_liveCount (l : List (deferred_construction T))
    (h : ∀ c ∈ l, c.storage_.isSome = c.initialized_) :
    dtorSum l = liveCount l := by
  induction l with
  | nil => rfl
  | cons a as ih =>
    have ha := h a (List.mem_cons_self _ _)
    have hrec := ih (fun c hc => h c (List.mem_cons_of_mem _ hc))
    simp [dtorSum, liveCount, destruct, ctorCount, ha, hrec]

theorem step_preserves_WInv (copyCtor : T → Except ε T)
    (moveCtor : T → Except ε (T × T)) (w : World T) (op : Op ε T)
    (hw : WInv w) : WInv (step copyCtor moveCtor w op) := by
  obtain ⟨h1, h2⟩ := hw
  cases op with
  | newCell =>
    simp only [step]
    refine ⟨?_, ?_⟩
    · intro c hc
      rcases List.mem_append.mp hc with hc | hc
      · exact h1 c hc
      · simp only [List.mem_singleton] at hc
        subst hc
        rfl
    · show w.ctors = w.dtors + liveCount (w.cells ++ [default_construct T])
      simp [liveCount_append, liveCount, ctorCount, default_construct, h2]
  | emplaceAt i ctor =>
    simp only [step]
    rcases Nat.lt_or_ge i w.cells.length with h | h
    · rw [dif_pos h]
      have hmem : w.cells[i] ∈ w.cells := List.getElem_mem h
      have hsrc := h1 _ hmem
      cases hv : has_value (w.cells[i]) with
      | true =>
        have he : emplace (w.cells[i]) ctor =
            EmplaceResult.assertViolation (w.cells[i]) := by
          simp [emplace, hv]
        simp only [he]
        exact ⟨h1, h2⟩
      | false =>
        cases ctor with
        | error e =>
          have he : emplace (w.cells[i]) (Except.error e : Except ε T) =
              EmplaceResult.thrown e (w.cells[i]) := by
            simp [emplace, hv]
          simp only [he]
          exact ⟨h1, h2⟩
        | ok v =>
          have he : emplace (w.cells[i]) (Except.ok v : Except ε T) =
              EmplaceResult.ok ⟨some v, true⟩ := by
            simp [emplace, hv]
          simp only [he]
          have hcc : ctorCount (w.cells[i]) = 0 := by
            simp [ctorCount, hsrc, show (w.cells[i]).initialized_ = false from hv]
          have hls := liveCount_set w.cells i ⟨some v, true⟩ h
          rw [hcc] at hls
          refine ⟨?_, ?_⟩
          · intro c hc
            rcases mem_of_mem_set hc with hc | hc
            · exact h1 c hc
            · subst hc; rfl
          · show w.ctors + ctorCount ⟨some v, true⟩ =
              w.dtors + liveCount (w.cells.set i ⟨some v, true⟩)
            simp only [ctorCount, Option.isSome_some, if_pos] at hls ⊢
            omega
    · rw [dif_neg (Nat.not_lt.mpr h)]
      exact ⟨h1, h2⟩
  | assignAt i ctor =>
    simp only [step]
    rcases Nat.lt_or_ge i w.cells.length with h | h
    · rw [dif_pos h]
      have hmem : w.cells[i] ∈ w.cells := List.getElem_mem h
      have hsrc := h1 _ hmem
      cases hv : has_value (w.cells[i]) with
      | true =>
        have he : assign (w.cells[i]) ctor =
            EmplaceResult.assertViolation (w.cells[i]) := by
          simp [assign, emplace, hv]
        simp only [he]
        exact ⟨h1, h2⟩
      | false =>
        cases ctor with
        | error e =>
          have he : assign (w.cells[i]) (Except.error e : Except ε T) =
              EmplaceResult.thrown e (w.cells[i]) := by
            simp [assign, emplace, hv]
          simp only [he]
          exact ⟨h1, h2⟩
        | ok v =>
          have he : assign (w.cells[i]) (Except.ok v : Except ε T) =
              EmplaceResult.ok ⟨some v, true⟩ := by
            simp [assign, emplace, hv]
          simp only [he]
          have hcc : ctorCount (w.cells[i]) = 0 := by
            simp [ctorCount, hsrc, show (w.cells[i]).initialized_ = false from hv]
          have hls := liveCount_set w.cells i ⟨some v, true⟩ h
          rw [hcc] at hls
          refine ⟨?_, ?_⟩
          · intro c hc
            rcases mem_of_mem_set hc with hc | hc
            · exact h1 c hc
            · subst hc; rfl
          · show w.ctors + ctorCount ⟨some v, true⟩ =
              w.dtors + liveCount (w.cells.set i ⟨some v, true⟩)
            simp only [ctorCount, Option.isSome_some, if_pos] at hls ⊢
            omega
    · rw [dif_neg (Nat.not_lt.mpr h)]
      exact ⟨h1, h2⟩
  | copyNewFrom i =>
    simp only [step]
    rcases Nat.lt_or_ge i w.cells.length with h | h
    · rw [dif_pos h]
      have hmem : w.cells[i] ∈ w.cells := List.getElem_mem h
      have hsrc := h1 _ hmem
      cases hinit : (w.cells[i]).initialized_ with
      | false =>
        have he : copy_construct copyCtor (w.cells[i]) =
            (CtorResult.ok ⟨none, false⟩, w.cells[i]) := by
          simp [copy_construct, hinit]
        simp only [he]
        rw [set_get_self]
        refine ⟨?_, ?_⟩
        · intro c hc
          rcases List.mem_append.mp hc with hc | hc
          · exact h1 c hc
          · simp only [List.mem_singleton] at hc; subst hc; rfl
        · show w.ctors + ctorCount ⟨none, false⟩ =
            w.dtors + liveCount (w.cells ++ [⟨none, false⟩])
          simp [ctorCount, liveCount_append, liveCount, h2]
      | true =>
        cases hst : (w.cells[i]).storage_ with
        | none =>
          rw [hst, hinit] at hsrc
          simp at hsrc
        | some v =>
          cases hcv : copyCtor v with
          | error e =>
            have he : copy_construct copyCtor (w.cells[i]) =
                (CtorResult.thrown e, w.cells[i]) := by
              simp [copy_construct, hinit, hst, hcv]
            simp only [he]
            rw [set_get_self]
            exact ⟨h1, h2⟩
          | ok wv =>
            have he : copy_construct copyCtor (w.cells[i]) =
                (CtorResult.ok ⟨some wv, true⟩, w.cells[i]) := by
              simp [copy_construct, hinit, hst, hcv]
            simp only [he]
            rw [set_get_self]
            refine ⟨?_, ?_⟩
            · intro c hc
              rcases List.mem_append.mp hc with hc | hc
              · exact h1 c hc
              · simp only [List.mem_singleton] at hc; subst hc; rfl
            · show w.ctors + ctorCount ⟨some wv, true⟩ =
                w.dtors + liveCount (w.cells ++ [⟨some wv, true⟩])
              simp [ctorCount, liveCount_append, liveCount]
              omega
    · rw [dif_neg (Nat.not_lt.mpr h)]
      exact ⟨h1, h2⟩
  | moveNewFrom i =>
    simp only [step]
    rcases Nat.lt_or_ge i w.cells.length with h | h
    · rw [dif_pos h]
      have hmem : w.cells[i] ∈ w.cells := List.getElem_mem h
      have hsrc := h1 _ hmem
      cases hinit : (w.cells[i]).initialized_ with
      | false =>
        have he : move_construct moveCtor (w.cells[i]) =
            (CtorResult.ok ⟨none, false⟩, w.cells[i]) := by
          simp [move_construct, hinit]
        simp only [he]
        rw [set_get_self]
        refine ⟨?_, ?_⟩
        · intro c hc
          rcases List.mem_append.mp hc with hc | hc
          · exact h1 c hc
          · simp only [List.mem_singleton] at hc; subst hc; rfl
        · show w.ctors + ctorCount ⟨none, false⟩ =
            w.dtors + liveCount (w.cells ++ [⟨none, false⟩])
          simp [ctorCount, liveCount_append, liveCount, h2]
      | true =>
        cases hst : (w.cells[i]).storage_ with
        | none =>
          rw [hst, hinit] at hsrc
          simp at hsrc
        | some v =>
          cases hmv : moveCtor v with
          | error e =>
            have he : move_construct moveCtor (w.cells[i]) =
                (CtorResult.thrown e, w.cells[i]) := by
              simp [move_construct, hinit, hst, hmv]
            simp only [he]
            rw [set_get_self]
            exact ⟨h1, h2⟩
          | ok p =>
            have he : move_construct moveCtor (w.cells[i]) =
                (CtorResult.ok ⟨some p.1, true⟩, ⟨some p.2, true⟩) := by
              simp [move_construct, hinit, hst, hmv]
            simp only [he]
            have hcc : ctorCount (w.cells[i]) = 1 := by
              simp [ctorCount, hst]
            have hls := liveCount_set w.cells i ⟨some p.2, true⟩ h
            rw [hcc] at hls
            refine ⟨?_, ?_⟩
            · intro c hc
              rcases List.mem_append.mp hc with hc | hc
              · rcases mem_of_mem_set hc with hc | hc
                · exact h1 c hc
                · subst hc; rfl
              · simp only [List.mem_singleton] at hc; subst hc; rfl
            · show w.ctors + ctorCount ⟨some p.1, true⟩ =
                w.dtors + liveCount ((w.cells.set i ⟨some p.2, true⟩) ++ [⟨some p.1, true⟩])
              simp only [ctorCount, Option.isSome_some, if_pos] at hls ⊢
              rw [liveCount_append]
              simp only [liveCount, ctorCount, Option.isSome_some, if_pos]
              omega
    · rw [dif_neg (Nat.not_lt.mpr h)]
      exact ⟨h1, h2⟩
  | hasValueAt i => exact ⟨h1, h2⟩
  | operatorBoolAt i => exact ⟨h1, h2⟩
  | valueLvalueAt i => exact ⟨h1, h2⟩
  | valueConstLvalueAt i => exact ⟨h1, h2⟩
  | valueRvalueAt i => exact ⟨h1, h2⟩
  | valueConstRvalueAt i => exact ⟨h1, h2⟩

theorem run_preserves_WInv (copyCtor : T → Except ε T)
    (moveCtor : T → Except ε (T × T)) (ops : List (Op ε T)) (w : World T)
    (hw : WInv w) : WInv (run copyCtor moveCtor w ops) := by
  induction ops generalizing w with
  | nil => exact hw
  | cons op rest ih =>
    show WInv (List.foldl (step copyCtor moveCtor) (step copyCtor moveCtor w op) rest)
    exact ih _ (step_preserves_WInv copyCtor moveCtor w op hw)

theorem copy_construct_snd (copyCtor : T → Except ε T) (c : deferred_construction T) :
    (copy_construct copyCtor c).2 = c := by
  cases hinit : c.initialized_ with
  | false => simp [copy_construct, hinit]
  | true =>
    cases hst : c.storage_ with
    | none => simp [copy_construct, hinit, hst]
    | some v =>
      cases hcv : copyCtor v with
      | error e => simp [copy_construct, hinit, hst, hcv]
      | ok wv => simp [copy_construct, hinit, hst, hcv]

theorem has_value_cell_after (c : deferred_construction T) (op : CellOp ε T)
    (h : has_value c = true) : has_value (cell_after c op) = true := by
  cases op with
  | emplaceOp ctor => simp [cell_after, emplace, h, EmplaceResult.self]
  | assignOp ctor => simp [cell_after, assign, emplace, h, EmplaceResult.self]
  | hasValueOp => simpa [cell_after] using h
  | operatorBoolOp => simpa [cell_after] using h
  | valueLvalueOp => simpa [cell_after] using h
  | valueConstLvalueOp => simpa [cell_after] using h
  | valueRvalueOp => simpa [cell_after] using h
  | valueConstRvalueOp => simpa [cell_after] using h
  | copySourceOp copyCtor => simpa [cell_after, copy_construct_snd] using h
  | moveSourceOp moveCtor =>
    have hinit : c.initialized_ = true := h
    cases hst : c.storage_ with
    | none => simpa [cell_after, move_construct, hinit, hst] using h
    | some v =>
      cases hmv : moveCtor v with
      | error e => simpa [cell_after, move_construct, hinit, hst, hmv] using h
      | ok p => simp [cell_after, move_construct, hinit, hst, hmv, has_value]

/-! ### The claims -/

/-- C1: for every cell and every sequence of exposed operations on it
(`emplace`, the convertible-value assignment, `has_value`, any of the four
value accessors, copy- or move-construction from it), once `has_value()` is
true it remains true: no exposed operation resets the cell to the
un-initialized state. -/
theorem dc_C1 (ops : List (CellOp ε T)) (c : deferred_construction T)
    (h : has_value c = true) : has_value (run_cell_ops c ops) = true := by
  induction ops generalizing c with
  | nil => exact h
  | cons op rest ih =>
    show has_value (List.foldl cell_after (cell_after c op) rest) = true
    exact ih (cell_after c op) (has_value_cell_after c op h)

/-- Witness for C1: a concrete filled cell stays filled across a concrete
sequence of every kind of exposed operation. -/
theorem dc_C1_witness :
    has_value (⟨some 7, true⟩ : deferred_construction Nat) = true ∧
    has_value (run_cell_ops (⟨some 7, true⟩ : deferred_construction Nat)
      [CellOp.emplaceOp (Except.ok 5), CellOp.assignOp (Except.error ()),
       CellOp.hasValueOp, CellOp.operatorBoolOp, CellOp.valueLvalueOp,
       CellOp.valueConstLvalueOp, CellOp.valueRvalueOp, CellOp.valueConstRvalueOp,
       CellOp.copySourceOp (fun v => Except.ok v),
       CellOp.moveSourceOp (fun v => (Except.ok (v, 0) : Except Unit (Nat × Nat)))]) =
      true :=
  ⟨rfl, dc_C1 _ _ rfl⟩

/-- C10: the explicit boolean conversion returns exactly `has_value()` on
every cell, and both are pure queries leaving the cell's state and stored
value unchanged. -/
theorem dc_C10 (c : deferred_construction T) :
    operator_bool c = has_value c ∧
    cell_after c (CellOp.operatorBoolOp : CellOp ε T) = c ∧
    cell_after c (CellOp.hasValueOp : CellOp ε T) = c :=
  ⟨rfl, rfl, rfl⟩

/-- C2: on an empty cell, a successful `emplace` (the chosen constructor of
`T` completes and yields `v`, the value of constructing `T(args)` directly)
makes `has_value()` true and every value accessor observe exactly `v`. -/
theorem dc_C2 (c : deferred_construction T) (v : T)
    (h : has_value c = false) :
    emplace c (Except.ok v : Except ε T) = EmplaceResult.ok ⟨some v, true⟩ ∧
    has_value (⟨some v, true⟩ : deferred_construction T) = true ∧
    value_lvalue (⟨some v, true⟩ : deferred_construction T) = .ok (some v) ∧
    value_const_lvalue (⟨some v, true⟩ : deferred_construction T) = .ok (some v) ∧
    value_rvalue (⟨some v, true⟩ : deferred_construction T) = .ok (some v) ∧
    value_const_rvalue (⟨some v, true⟩ : deferred_construction T) = .ok (some v) := by
  refine ⟨?_, rfl, rfl, rfl, rfl, rfl⟩
  simp [emplace, h]

/-- Witness for C2 on a concrete empty cell. -/
theorem dc_C2_witness :
    has_value (default_construct Nat) = false ∧
    emplace (default_construct Nat) (Except.ok 3 : Except Unit Nat) =
      EmplaceResult.ok ⟨some 3, true⟩ ∧
    has_value (⟨some 3, true⟩ : deferred_construction Nat) = true ∧
    value_lvalue (⟨some 3, true⟩ : deferred_construction Nat) = .ok (some 3) ∧
    value_const_lvalue (⟨some 3, true⟩ : deferred_construction Nat) = .ok (some 3) ∧
    value_rvalue (⟨some 3, true⟩ : deferred_construction Nat) = .ok (some 3) ∧
    value_const_rvalue (⟨some 3, true⟩ : deferred_construction Nat) = .ok (some 3) :=
  ⟨rfl, dc_C2 (default_construct Nat) 3 rfl⟩

/-- C3: if the chosen constructor of `T` throws during `emplace` on an empty
cell, the same failure propagates to the caller, the cell reports
`has_value() = false` afterwards (no partial state — it is left exactly as it
was), and no `T` destructor runs for the attempt: an instrumented test-run
step performing such an `emplace` changes nothing at all, in particular not
the destruction counter. -/
theorem dc_C3 (c : deferred_construction T) (e : ε)
    (h : has_value c = false) :
    emplace c (Except.error e : Except ε T) = EmplaceResult.thrown e c ∧
    has_value ((emplace c (Except.error e : Except ε T)).self) = false ∧
    (∀ (copyCtor : T → Except ε T) (moveCtor : T → Except ε (T × T))
      (w : World T) (i : Nat) (hi : i < w.cells.length), w.cells[i] = c →
      step copyCtor moveCtor w (Op.emplaceAt i (Except.error e)) = w) := by
  have he : emplace c (Except.error e : Except ε T) = EmplaceResult.thrown e c := by
    simp [emplace, h]
  refine ⟨he, ?_, ?_⟩
  · rw [he]
    exact h
  · intro copyCtor moveCtor w i hi hcell
    simp only [step]
    rw [dif_pos hi]
    have he' : emplace (w.cells[i]) (Except.error e : Except ε T) =
        EmplaceResult.thrown e (w.cells[i]) := by
      rw [hcell]
      simp [emplace, h]
    simp only [he']

/-- Witness for C3 on a concrete empty cell inside a concrete world. -/
theorem dc_C3_witness :
    has_value (default_construct Nat) = false ∧
    emplace (default_construct Nat) (Except.error () : Except Unit Nat) =
      EmplaceResult.thrown () (default_construct Nat) ∧
    step (fun v => Except.ok v) (fun v => Except.ok (v, v))
      (⟨[default_construct Nat], 0, 0⟩ : World Nat)
      (Op.emplaceAt 0 (Except.error ())) =
      (⟨[default_construct Nat], 0, 0⟩ : World Nat) := by
  have hc := dc_C3 (default_construct Nat) () rfl
  exact ⟨rfl, hc.1, hc.2.2 (fun v => Except.ok v) (fun v => Except.ok (v, v))
    ⟨[default_construct Nat], 0, 0⟩ 0 (by decide) rfl⟩

/-- C4: `emplace` on an already-filled cell fires the fail-fast
`DEBUG_ASSERT` before any construction takes place: for every possible
constructor run the result is the contract-violation path with the cell
unchanged (same stored value, still filled), and an instrumented test-run
step performing it changes nothing — in particular no construction is
counted. -/
theorem dc_C4 (c : deferred_construction T) (h : has_value c = true) :
    (∀ ctor : Except ε T, emplace c ctor = EmplaceResult.assertViolation c) ∧
    (∀ (copyCtor : T → Except ε T) (moveCtor : T → Except ε (T × T))
      (w : World T) (i : Nat) (hi : i < w.cells.length), w.cells[i] = c →
      ∀ ctor : Except ε T, step copyCtor moveCtor w (Op.emplaceAt i ctor) = w) := by
  refine ⟨fun ctor => by simp [emplace, h], ?_⟩
  intro copyCtor moveCtor w i hi hcell ctor
  simp only [step]
  rw [dif_pos hi]
  have he : emplace (w.cells[i]) ctor =
      EmplaceResult.assertViolation (w.cells[i]) := by
    rw [hcell]
    simp [emplace, h]
  simp only [he]

/-- Witness for C4 on a concrete filled cell inside a concrete world. -/
theorem dc_C4_witness :
    has_value (⟨some 9, true⟩ : deferred_construction Nat) = true ∧
    emplace (⟨some 9, true⟩ : deferred_construction Nat) (Except.ok 4 : Except Unit Nat) =
      EmplaceResult.assertViolation ⟨some 9, true⟩ ∧
    step (fun v => Except.ok v) (fun v => Except.ok (v, v))
      (⟨[⟨some 9, true⟩], 1, 0⟩ : World Nat)
      (Op.emplaceAt 0 (Except.ok 4) : Op Unit Nat) =
      (⟨[⟨some 9, true⟩], 1, 0⟩ : World Nat) := by
  have hc := dc_C4 (ε := Unit) (⟨some 9, true⟩ : deferred_construction Nat) rfl
  exact ⟨rfl, hc.1 (Except.ok 4), hc.2 (fun v => Except.ok v) (fun v => Except.ok (v, v))
    ⟨[⟨some 9, true⟩], 1, 0⟩ 0 (by decide) rfl (Except.ok 4)⟩

/-- C5: all four value-access modes exist; on a filled cell all four observe
the same stored value and leave the cell unchanged; on an empty cell each of
them fires the fail-fast `DEBUG_ASSERT` and never returns a usable
reference. -/
theorem dc_C5 (c : deferred_construction T) :
    (has_value c = true →
      value_lvalue c = .ok c.storage_ ∧
      value_const_lvalue c = .ok c.storage_ ∧
      value_rvalue c = .ok c.storage_ ∧
      value_const_rvalue c = .ok c.storage_) ∧
    (has_value c = false →
      value_lvalue c = .assertViolation ∧
      value_const_lvalue c = .assertViolation ∧
      value_rvalue c = .assertViolation ∧
      value_const_rvalue c = .assertViolation) ∧
    cell_after c (CellOp.valueLvalueOp : CellOp ε T) = c ∧
    cell_after c (CellOp.valueConstLvalueOp : CellOp ε T) = c ∧
    cell_after c (CellOp.valueRvalueOp : CellOp ε T) = c ∧
    cell_after c (CellOp.valueConstRvalueOp : CellOp ε T) = c := by
  refine ⟨fun h => ?_, fun h => ?_, rfl, rfl, rfl, rfl⟩
  · exact ⟨by simp [value_lvalue, h], by simp [value_const_lvalue, h],
      by simp [value_rvalue, h], by simp [value_const_rvalue, h]⟩
  · exact ⟨by simp [value_lvalue, h], by simp [value_const_lvalue, h],
      by simp [value_rvalue, h], by simp [value_const_rvalue, h]⟩

/-- Witness for C5 at a concrete filled cell and a concrete empty cell. -/
theorem dc_C5_witness :
    (value_lvalue (⟨some 2, true⟩ : deferred_construction Nat) = .ok (some 2) ∧
      value_const_lvalue (⟨some 2, true⟩ : deferred_construction Nat) = .ok (some 2) ∧
      value_rvalue (⟨some 2, true⟩ : deferred_construction Nat) = .ok (some 2) ∧
      value_const_rvalue (⟨some 2, true⟩ : deferred_construction Nat) = .ok (some 2)) ∧
    (value_lvalue (default_construct Nat) = .assertViolation ∧
      value_const_lvalue (default_construct Nat) = .assertViolation ∧
      value_rvalue (default_construct Nat) = .assertViolation ∧
      value_const_rvalue (default_construct Nat) = .assertViolation) :=
  ⟨(dc_C5 (ε := Unit) (⟨some 2, true⟩ : deferred_construction Nat)).1 rfl,
   (dc_C5 (ε := Unit) (default_construct Nat)).2.1 rfl⟩

/-- C6: copy fidelity with the value type's genuine (value-preserving) copy
constructor: copy-constructing from an empty source yields an empty cell;
copy-constructing from a filled source yields a filled cell whose stored
value equals the source's value; in both cases the source cell is left
unchanged (in particular still filled with the same value). -/
theorem dc_C6 (c : deferred_construction T) :
    (has_value c = false →
      copy_construct (fun v => (Except.ok v : Except ε T)) c =
        (CtorResult.ok (default_construct T), c)) ∧
    (∀ v, has_value c = true → c.storage_ = some v →
      copy_construct (fun v => (Except.ok v : Except ε T)) c =
        (CtorResult.ok ⟨some v, true⟩, c)) := by
  constructor
  · intro h
    simp [copy_construct, show c.initialized_ = false from h, default_construct]
  · intro v h hst
    simp [copy_construct, show c.initialized_ = true from h, hst]

/-- Witness for C6 at a concrete empty source and a concrete filled source. -/
theorem dc_C6_witness :
    copy_construct (fun v => (Except.ok v : Except Unit Nat)) (default_construct Nat) =
      (CtorResult.ok (default_construct Nat), default_construct Nat) ∧
    copy_construct (fun v => (Except.ok v : Except Unit Nat))
        (⟨some 6, true⟩ : deferred_construction Nat) =
      (CtorResult.ok ⟨some 6, true⟩, ⟨some 6, true⟩) :=
  ⟨(dc_C6 (default_construct Nat)).1 rfl,
   (dc_C6 (⟨some 6, true⟩ : deferred_construction Nat)).2 6 rfl rfl⟩

/-- C7: if the value type's copy constructor throws while copy-constructing a
new cell from a filled source, the same error propagates verbatim to the
caller and no cell with a (partially) constructed value results — the
construction result carries no cell at all, the source is unchanged, and an
instrumented test-run step performing the copy changes nothing (no
construction is counted, no destructor runs). -/
theorem dc_C7 (copyCtor : T → Except ε T) (c : deferred_construction T)
    (v : T) (e : ε) (h : has_value c = true) (hst : c.storage_ = some v)
    (hcv : copyCtor v = Except.error e) :
    copy_construct copyCtor c = (CtorResult.thrown e, c) ∧
    (∀ (moveCtor : T → Except ε (T × T)) (w : World T) (i : Nat)
      (hi : i < w.cells.length), w.cells[i] = c →
      step copyCtor moveCtor w (Op.copyNewFrom i) = w) := by
  have he : copy_construct copyCtor c = (CtorResult.thrown e, c) := by
    simp [copy_construct, show c.initialized_ = true from h, hst, hcv]
  refine ⟨he, ?_⟩
  intro moveCtor w i hi hcell
  simp only [step]
  rw [dif_pos hi]
  have he' : copy_construct copyCtor (w.cells[i]) = (CtorResult.thrown e, w.cells[i]) := by
    rw [hcell]
    exact he
  simp only [he']
  rw [set_get_self]

/-- Witness for C7: a copy constructor that always throws, applied to a
concrete filled source inside a concrete world. -/
theorem dc_C7_witness :
    copy_construct (fun _ => (Except.error () : Except Unit Nat))
        (⟨some 8, true⟩ : deferred_construction Nat) =
      (CtorResult.thrown (), ⟨some 8, true⟩) ∧
    step (fun _ => (Except.error () : Except Unit Nat)) (fun v => Except.ok (v, v))
      (⟨[⟨some 8, true⟩], 1, 0⟩ : World Nat) (Op.copyNewFrom 0) =
      (⟨[⟨some 8, true⟩], 1, 0⟩ : World Nat) := by
  have hc := dc_C7 (fun _ => (Except.error () : Except Unit Nat))
    (⟨some 8, true⟩ : deferred_construction Nat) 8 () rfl rfl rfl
  exact ⟨hc.1, hc.2 (fun v => Except.ok (v, v)) ⟨[⟨some 8, true⟩], 1, 0⟩ 0 (by decide) rfl⟩

/-- C8: move fidelity: move-constructing from an empty source yields an empty
cell with the source untouched; move-constructing from a filled source (the
move constructor of `T` transfers the value, producing the constructed object
and the moved-from residue) yields a filled destination holding the
transferred value, and the source still reports `has_value() = true`
afterwards — it remains filled, holding the moved-from but destructible
residue. -/
theorem dc_C8 (moveCtor : T → Except ε (T × T)) (c : deferred_construction T) :
    (has_value c = false →
      move_construct moveCtor c = (CtorResult.ok (default_construct T), c)) ∧
    (∀ v a b, has_value c = true → c.storage_ = some v →
      moveCtor v = Except.ok (a, b) →
      move_construct moveCtor c = (CtorResult.ok ⟨some a, true⟩, ⟨some b, true⟩) ∧
      has_value ((move_construct moveCtor c).2) = true) := by
  constructor
  · intro h
    simp [move_construct, show c.initialized_ = false from h, default_construct]
  · intro v a b h hst hmv
    have he : move_construct moveCtor c =
        (CtorResult.ok ⟨some a, true⟩, ⟨some b, true⟩) := by
      simp [move_construct, show c.initialized_ = true from h, hst, hmv]
    exact ⟨he, by rw [he]; rfl⟩

/-- Witness for C8 at a concrete empty source and a concrete filled source. -/
theorem dc_C8_witness :
    move_construct (fun v => (Except.ok (v, 0) : Except Unit (Nat × Nat)))
        (default_construct Nat) =
      (CtorResult.ok (default_construct Nat), default_construct Nat) ∧
    move_construct (fun v => (Except.ok (v, 0) : Except Unit (Nat × Nat)))
        (⟨some 5, true⟩ : deferred_construction Nat) =
      (CtorResult.ok ⟨some 5, true⟩, ⟨some 0, true⟩) ∧
    has_value ((move_construct (fun v => (Except.ok (v, 0) : Except Unit (Nat × Nat)))
        (⟨some 5, true⟩ : deferred_construction Nat)).2) = true := by
  have hfill := (dc_C8 (fun v => (Except.ok (v, 0) : Except Unit (Nat × Nat)))
    (⟨some 5, true⟩ : deferred_construction Nat)).2 5 5 0 rfl rfl rfl
  exact ⟨(dc_C8 (fun v => (Except.ok (v, 0) : Except Unit (Nat × Nat)))
    (default_construct Nat)).1 rfl, hfill.1, hfill.2⟩

/-- C9: destroying a filled cell invokes the `T` destructor exactly once and
destroying an empty cell invokes it zero times; consequently, over every test
run (any sequence of cell operations from the empty world, with any copy and
move constructors of the value type) followed by destruction of every cell,
the number of completed `T` constructions equals the number of `T`
destructions. -/
theorem dc_C9 :
    (∀ (T : Type) (c : deferred_construction T), has_value c = true → destruct c = 1) ∧
    (∀ (T : Type) (c : deferred_construction T), has_value c = false → destruct c = 0) ∧
    (∀ (T ε : Type) (copyCtor : T → Except ε T) (moveCtor : T → Except ε (T × T))
      (ops : List (Op ε T)),
      (destroyAll (run copyCtor moveCtor (world0 T) ops)).ctors =
        (destroyAll (run copyCtor moveCtor (world0 T) ops)).dtors) := by
  refine ⟨fun T c h => by simp [destruct, show c.initialized_ = true from h],
    fun T c h => by simp [destruct, show c.initialized_ = false from h], ?_⟩
  intro T ε copyCtor moveCtor ops
  have h0 : WInv (world0 T) := by
    constructor
    · intro c hc
      simp [world0] at hc
    · rfl
  obtain ⟨hI1, hcons⟩ := run_preserves_WInv copyCtor moveCtor ops (world0 T) h0
  show (run copyCtor moveCtor (world0 T) ops).ctors =
    (run copyCtor moveCtor (world0 T) ops).dtors +
      dtorSum (run copyCtor moveCtor (world0 T) ops).cells
  rw [dtorSum_eq_liveCount _ hI1]
  exact hcons

/-- Witness for C9 at a concrete filled cell, a concrete empty cell, and a
concrete test run. -/
theorem dc_C9_witness :
    destruct (⟨some 4, true⟩ : deferred_construction Nat) = 1 ∧
    destruct (default_construct Nat) = 0 ∧
    (destroyAll (run (fun v => Except.ok v)
        (fun v => (Except.ok (v, 0) : Except Unit (Nat × Nat))) (world0 Nat)
        [Op.newCell, Op.emplaceAt 0 (Except.ok 3), Op.copyNewFrom 0,
         Op.moveNewFrom 1, Op.newCell, Op.emplaceAt 0 (Except.ok 9)])).ctors =
      (destroyAll (run (fun v => Except.ok v)
        (fun v => (Except.ok (v, 0) : Except Unit (Nat × Nat))) (world0 Nat)
        [Op.newCell, Op.emplaceAt 0 (Except.ok 3), Op.copyNewFrom 0,
         Op.moveNewFrom 1, Op.newCell, Op.emplaceAt 0 (Except.ok 9)])).dtors :=
  ⟨dc_C9.1 Nat ⟨some 4, true⟩ rfl, dc_C9.2.1 Nat (default_construct Nat) rfl,
   dc_C9.2.2 Nat Unit (fun v => Except.ok v)
     (fun v => (Except.ok (v, 0) : Except Unit (Nat × Nat)))
     [Op.newCell, Op.emplaceAt 0 (Except.ok 3), Op.copyNewFrom 0,
      Op.moveNewFrom 1, Op.newCell, Op.emplaceAt 0 (Except.ok 9)]⟩

end type_safe
